import Mathlib

/-!
Verification of the agentic-chatbot repository (src/agent/graph.py,
src/utils/tools.py, src/app.py).

The development shallowly embeds the conversation control loop of
`AgenticChatBot` (src/agent/graph.py): the message data model, the tool
execution step `_execute_tools`, the context trimming performed by
`_executor` through langchain's `trim_messages` (called with
strategy="last", start_on="human", end_on=("human","assistant","tool"),
include_system=True, allow_partial=False), the LangGraph agent/tools loop
with its recursion limit, and the public session operations `run` and
`start_new_conversation`.

External collaborators (the LLM backend, the tokenizers, the concrete tool
behaviours backed by the mem0 service) are parameters of the embedding:
the LLM is a function from a message list to an assistant reply, the gate
token counter (`self._llm.get_num_tokens(get_buffer_string(...))`) is an
abstract function on message lists, and the trimming counter
(`count_tokens_approximately`, which sums a per-message estimate) is
parameterised by a per-message count.
-/

namespace AgenticChatbot

/-- A tool call embedded in an assistant message: a tool name, an argument
mapping (a Python dict, embedded as an ordered association list) and a call
identifier, as produced by the LLM and consumed by `_execute_tools`. -/
structure ToolCall where
  name : String
  args : List (String × String)
  id : String
deriving DecidableEq, Repr

/-- One conversational message, following the langchain message kinds the
code manipulates: SystemMessage, HumanMessage, AIMessage (which may carry
tool calls) and ToolMessage (which carries the id of the call it answers). -/
inductive Msg where
  | system (content : String)
  | human (content : String)
  | ai (content : String) (tool_calls : List ToolCall)
  | tool (tool_call_id : String) (content : String)
deriving DecidableEq, Repr

/-- The `.content` attribute every langchain message exposes. -/
def Msg.content : Msg → String
  | .system s => s
  | .human s => s
  | .ai s _ => s
  | .tool _ s => s

/-- The tool-call id a ToolMessage carries (empty for other kinds). -/
def Msg.toolCallId : Msg → String
  | .tool i _ => i
  | _ => ""

/-- A tool function: receives the argument mapping and either returns the
stringified result (`str(res)` in `_execute_tools`) or raises, embedded as
`Except` whose error is the exception's message. -/
def ToolFn : Type := List (String × String) → Except String String

/-- Python `dict.update({k: v})` on an ordered dict embedded as an
association list: replaces the value in place if the key is present,
appends the pair otherwise. -/
def setArg : List (String × String) → String → String → List (String × String)
  | [], k, v => [(k, v)]
  | (k', v') :: rest, k, v =>
      if k' = k then (k, v) :: rest else (k', v') :: setArg rest k v

/-- Result of resolving one tool call in `_execute_tools.invoke_tool`: the
produced ToolMessage together with the tool call as it stands afterwards
(its `args` dict is mutated in place by `args.update({"user_id": ...})`
when the tool exists, so the embedding returns the updated call). -/
structure ToolResult where
  msg : Msg
  call : ToolCall
deriving DecidableEq, Repr

/-- `_execute_tools.invoke_tool` (src/agent/graph.py lines 73-84): look the
tool up by name; if absent, answer `"Tool doesn't exist!"` (the call's args
are left untouched — the function returns before the update); otherwise
inject the session's user id into the args in place, invoke the tool, and
answer its stringified result, or `"Error: <message>"` if it raised. -/
def invoke_tool (reg : List (String × ToolFn)) (user_id : String)
    (tc : ToolCall) : ToolResult :=
  match reg.lookup tc.name with
  | none => ⟨.tool tc.id "Tool doesn't exist!", tc⟩
  | some fn =>
      let args := setArg tc.args "user_id" user_id
      match fn args with
      | .ok res => ⟨.tool tc.id res, { tc with args := args }⟩
      | .error e => ⟨.tool tc.id ("Error: " ++ e), { tc with args := args }⟩

/-- The list of ToolMessages `_execute_tools` appends: one per tool call of
the latest assistant message, gathered in call order (asyncio.gather
returns results positionally, regardless of completion order). -/
def execute_tools (reg : List (String × ToolFn)) (user_id : String)
    (tcs : List ToolCall) : List Msg :=
  tcs.map fun tc => (invoke_tool reg user_id tc).msg

/-- The tool calls of the latest assistant message as they stand after
`_execute_tools` ran (the in-place `args.update` side effect). -/
def mutated_calls (reg : List (String × ToolFn)) (user_id : String)
    (tcs : List ToolCall) : List ToolCall :=
  tcs.map fun tc => (invoke_tool reg user_id tc).call

/-! ### Context trimming

`_trim_messages` calls langchain's `trim_messages` with
`token_counter=count_tokens_approximately`, `max_tokens=max_context`,
`strategy="last"`, `start_on="human"`,
`end_on=("human","assistant","tool")`, `include_system=True`,
`allow_partial=False`.  For that parameterisation langchain computes:
pop messages from the end until the last one matches `end_on`; if the
first remaining message is a system message, set it aside and reduce the
budget by its token count; over the reversed remainder find the largest
fitting prefix (i.e. the largest fitting suffix of the history), then
walk the boundary back until it sits on a `start_on` (human) message;
return the kept system message followed by that window.  There is no
fallback to the untrimmed input.  `count_tokens_approximately` sums a
per-message estimate, embedded here as a per-message count `c`. -/

/-- Does the message match `start_on="human"`? -/
def isHumanB : Msg → Bool
  | .human _ => true
  | _ => false

/-- Does the message match `end_on=("human","assistant","tool")`? -/
def isEndOnB : Msg → Bool
  | .system _ => false
  | _ => true

/-- Token count of a message list under a per-message counter, matching
the additive shape of `count_tokens_approximately`. -/
def sumTokens (c : Msg → Nat) (msgs : List Msg) : Nat :=
  (msgs.map c).sum

/-- The largest `k ≤ bound` such that the first `k` messages of `rev` fit
the budget, 0 if none does (the prefix search of `_first_max_tokens`,
applied to the reversed history). -/
def findLargestFit (c : Msg → Nat) (budget : Int) (rev : List Msg) :
    Nat → Nat
  | 0 => 0
  | k + 1 =>
      if (sumTokens c (rev.take (k + 1)) : Int) ≤ budget then k + 1
      else findLargestFit c budget rev k

/-- Walk the window boundary back until it sits on a message satisfying
`s` (the trailing `while idx > 0 and not is_message_type(...)` loop of
`_first_max_tokens`, with `end_on=start_on` since the list is reversed). -/
def walkBack (s : Msg → Bool) (rev : List Msg) : Nat → Nat
  | 0 => 0
  | j + 1 => if (rev.get? j).any s then j + 1 else walkBack s rev j

/-- `_first_max_tokens` with `partial_strategy=None`: the kept portion of
the reversed history. -/
def firstMaxTokens (c : Msg → Nat) (budget : Int) (s : Msg → Bool)
    (rev : List Msg) : List Msg :=
  rev.take (walkBack s rev (findLargestFit c budget rev rev.length))

/-- Pop messages from the end while the last one fails `end_on`. -/
def dropEndFailing (endB : Msg → Bool) (msgs : List Msg) : List Msg :=
  (msgs.reverse.dropWhile fun m => !endB m).reverse

/-- langchain's `trim_messages` under the exact parameters used by
`AgenticChatBot._trim_messages` (strategy="last", start_on="human",
end_on=("human","assistant","tool"), include_system=True,
allow_partial=False), with the token counter abstracted to a per-message
count `c`. -/
def trim_messages (c : Msg → Nat) (maxTokens : Nat) (msgs : List Msg) :
    List Msg :=
  let msgs := dropEndFailing isEndOnB msgs
  match msgs with
  | [] => []
  | first :: rest =>
      match first with
      | .system _ =>
          let budget : Int := (maxTokens : Int) - (c first : Int)
          first :: (firstMaxTokens c budget isHumanB rest.reverse).reverse
      | _ => (firstMaxTokens c (maxTokens : Int) isHumanB msgs.reverse).reverse

/-! ### The LangGraph agent/tools loop -/

/-- The external collaborators and configuration the graph nodes read:
the LLM (`self._llm_with_tools.invoke`, returning one assistant message as
content plus tool calls), the tool registry (`self._tools_map`), the gate
token counter (`self._count_tokens`, i.e.
`self._llm.get_num_tokens(get_buffer_string(...))`), the per-message count
behind `count_tokens_approximately`, and `llm_config["max_context"]`
(absent or 0 are both falsy in the `if max_context and ...` gate). -/
structure Env where
  llm : List Msg → String × List ToolCall
  tools : List (String × ToolFn)
  gate : List Msg → Nat
  c : Msg → Nat
  maxContext : Option Nat

/-- The message sequence `_executor` passes to the LLM: the state's
messages, trimmed through `_trim_messages` when `max_context` is set,
nonzero, and exceeded according to the gate counter (graph.py lines
62-65).  The trimmed sequence is only the LLM input; the persisted state
keeps the untrimmed messages. -/
def maybeTrim (env : Env) (msgs : List Msg) : List Msg :=
  match env.maxContext with
  | none => msgs
  | some mc =>
      if mc ≠ 0 ∧ env.gate msgs > mc then trim_messages env.c mc msgs
      else msgs

/-- The update the `agent` node returns: `{"messages": [response]}` where
`response` is the LLM's assistant message on the (possibly trimmed)
sequence. -/
def executor (env : Env) (msgs : List Msg) : List Msg :=
  [Msg.ai (env.llm (maybeTrim env msgs)).1 (env.llm (maybeTrim env msgs)).2]

/-- The `agent` node's effect on the messages channel (the update is
appended by the `operator.add` reducer of `GraphState.messages`). -/
def agentStep (env : Env) (msgs : List Msg) : List Msg :=
  msgs ++ executor env msgs

/-- `_tool_exists`: is the latest message an assistant message with a
nonempty list of tool calls? -/
def toolExists (msgs : List Msg) : Bool :=
  match msgs.getLast? with
  | some (.ai _ tcs) => !tcs.isEmpty
  | _ => false

/-- The `execute_tools` node's effect on the messages channel: the tool
calls of the latest assistant message have their args mutated in place
(so the embedded assistant message changes), and one ToolMessage per call
is appended by the reducer. -/
def toolsStep (reg : List (String × ToolFn)) (user_id : String)
    (msgs : List Msg) : List Msg :=
  match msgs.getLast? with
  | some (.ai cont tcs) =>
      msgs.dropLast ++ [Msg.ai cont (mutated_calls reg user_id tcs)]
        ++ execute_tools reg user_id tcs
  | _ => msgs

/-- The graph's control position: entry point `agent`, the `execute_tools`
node, or END. -/
inductive Node where
  | agent
  | tools
  | done
deriving DecidableEq, Repr

/-- The compiled graph's execution loop with LangGraph's recursion limit
embedded as fuel: each super-step (node execution) consumes one unit;
when the limit is exhausted before END is reached the run fails with
`GraphRecursionError`, whose payload here is the state of the last
completed super-step — exactly what the MemorySaver checkpointer has
persisted at that point. -/
def runLoop (env : Env) (user_id : String) :
    Nat → Node → List Msg → Except (List Msg) (List Msg)
  | _, .done, msgs => .ok msgs
  | 0, .agent, msgs => .error msgs
  | 0, .tools, msgs => .error msgs
  | fuel + 1, .agent, msgs =>
      let m2 := agentStep env msgs
      runLoop env user_id fuel (if toolExists m2 then .tools else .done) m2
  | fuel + 1, .tools, msgs =>
      runLoop env user_id fuel .agent (toolsStep env.tools user_id msgs)

/-! ### The Conversation Session -/

/-- `self._config`: the invocation configuration dict.  At construction it
is `{"configurable": {"thread_id": tid}, "recursion_limit": limit}`;
`start_new_conversation` rebuilds it with a fresh thread id and no
recursion-limit entry. -/
structure InvocationConfig where
  thread_id : String
  recursion_limit : Option Nat
deriving DecidableEq, Repr

/-- The session object: user id, the fixed system prompt, the invocation
configuration, and the MemorySaver checkpoint store keyed by thread id
(the latest checkpointed message sequence per thread). -/
structure Bot where
  user_id : String
  system_prompt : String
  config : InvocationConfig
  store : List (String × List Msg)
deriving Repr

/-- `AgenticChatBot.__init__` as far as the session state is concerned:
a fresh thread id and
`self._config = {"configurable": {"thread_id": tid}, "recursion_limit":
config.get("recursion_limit", 25)}` (graph.py lines 38-39). -/
def initBot (user_id system_prompt : String) (recursion_limit : Option Nat)
    (tid : String) : Bot :=
  { user_id := user_id, system_prompt := system_prompt,
    config := ⟨tid, some (recursion_limit.getD 25)⟩, store := [] }

/-- `start_new_conversation`: generate a new thread id and reset
`self._config` to `{"configurable": {"thread_id": new_tid}}` — the
recursion-limit entry set at construction is dropped (graph.py lines
115-120).  The old thread's checkpoints stay in the store. -/
def start_new_conversation (b : Bot) (newTid : String) : Bot :=
  { b with config := ⟨newTid, none⟩ }

/-- The recursion limit LangGraph applies to an invocation: the config's
entry if present, else the framework default of 25. -/
def Bot.effectiveRecursionLimit (b : Bot) : Nat :=
  b.config.recursion_limit.getD 25

/-- `self._memory.get(self._config)`: the persisted state of the config's
thread, if any. -/
def Bot.persisted (b : Bot) : Option (List Msg) :=
  b.store.lookup b.config.thread_id

/-- The `input_data["messages"]` of `run` (graph.py lines 126-133): with
no prior state, a system message holding the fixed system prompt followed
by the user's message (the extra `collected_insights`/`variables` keys are
dropped by LangGraph's input mapping since `GraphState` has no such
channels); with prior state, only the user's message. -/
def Bot.inputFor (b : Bot) (query : String) : List Msg :=
  match b.persisted with
  | none => [Msg.system b.system_prompt, Msg.human query]
  | some _ => [Msg.human query]

/-- The messages channel at the start of the invocation: the thread's
checkpointed messages (empty for a fresh thread) with the input appended
by the `operator.add` reducer. -/
def Bot.initialMessages (b : Bot) (query : String) : List Msg :=
  (b.persisted.getD []) ++ b.inputFor query

/-- What `run` returns.  The code returns the whole final graph state
(`return response`, a mapping holding the full message sequence),
embedded as `.state`; `.str` is the shape the specification asserts (just
the final assistant message's content) and is never produced by the code;
`.recursionError` is a `GraphRecursionError` escaping `ainvoke`. -/
inductive RunResult where
  | str (content : String)
  | state (messages : List Msg)
  | recursionError
deriving DecidableEq, Repr

/-- Is the returned value a bare string? -/
def RunResult.isStr : RunResult → Bool
  | .str _ => true
  | _ => false

/-- Store update: replace or add the checkpoint of one thread. -/
def putStore (store : List (String × List Msg)) (tid : String)
    (msgs : List Msg) : List (String × List Msg) :=
  match store with
  | [] => [(tid, msgs)]
  | (k, v) :: rest =>
      if k = tid then (tid, msgs) :: rest else (k, v) :: putStore rest tid msgs

/-- `AgenticChatBot.run` (graph.py lines 122-136): read the thread's
persisted state, build the seed input accordingly, run the graph under
the invocation config's recursion limit, and return the full final state
(`return response`); the MemorySaver retains the last completed
super-step's checkpoint, also when the run dies with
`GraphRecursionError`. -/
def Bot.run (env : Env) (b : Bot) (query : String) : RunResult × Bot :=
  match runLoop env b.user_id b.effectiveRecursionLimit .agent
      (b.initialMessages query) with
  | .ok final =>
      (.state final, { b with store := putStore b.store b.config.thread_id final })
  | .error ckpt =>
      (.recursionError, { b with store := putStore b.store b.config.thread_id ckpt })

/-- The Interactive Shell's extraction of the answer
(`response['messages'][-1].content`, src/app.py line 136). -/
def chatExtract : RunResult → Option String
  | .state msgs => msgs.getLast?.map Msg.content
  | _ => none

/-! ### The tool registry (src/utils/tools.py)

The two registered tools wrap the external mem0 service, which is a
parameter of the embedding. -/

/-- The external long-term memory service behind the tools: `add` and
`search`, each returning a result or raising (transport failure). -/
structure MemoryService where
  add : String → String → Except String String
  search : String → String → Except String String

/-- `add_update_memory` (src/utils/tools.py): stores the `memory` argument
for `user_id` and returns the fixed success string; a missing argument is
an invocation error, as is a service failure. -/
def add_update_memory (svc : MemoryService) : ToolFn := fun args =>
  match args.lookup "memory", args.lookup "user_id" with
  | some m, some uid =>
      (svc.add m uid).map fun _ => "Memory has been added successfully."
  | _, _ => .error "validation error"

/-- `fetch_memory` (src/utils/tools.py): searches the stored memories of
`user_id` by the `query` argument and returns the (stringified) result. -/
def fetch_memory (svc : MemoryService) : ToolFn := fun args =>
  match args.lookup "query", args.lookup "user_id" with
  | some q, some uid => svc.search q uid
  | _, _ => .error "validation error"

/-- `_setup_tools`: the registry maps exactly the two tool names to their
functions (graph.py lines 45-47). -/
def setup_tools (svc : MemoryService) : List (String × ToolFn) :=
  [("add_update_memory", add_update_memory svc),
   ("fetch_memory", fetch_memory svc)]

/-! ### Derived quantities and concrete instances used by the theorems -/

/-- The window `trim_messages` puts after the retained system message when
the history starts with a system message (the reversal of the kept portion
of the reversed remainder). -/
def trimWindow (c : Msg → Nat) (mc : Nat) (p : String) (rest : List Msg) :
    List Msg :=
  (firstMaxTokens c ((mc : Int) - (c (Msg.system p) : Int)) isHumanB
    rest.reverse).reverse

/-- Decidable statement that no nonempty suffix of the history beginning
on a human message fits the budget (`rev` is the reversed remainder after
the system message, so its `k`-element front is the history's most recent
`k` messages). -/
def noWindowFitsB (c : Msg → Nat) (budget : Int) (rev : List Msg) : Bool :=
  (List.range (rev.length + 1)).all fun k =>
    !(decide (0 < k) && (rev.get? (k - 1)).any isHumanB) ||
      decide (budget < (sumTokens c (rev.take k) : Int))

/-- The message sequence a loop outcome carries: the final state on
success, the last completed super-step's checkpoint on
`GraphRecursionError`. -/
def payload : Except (List Msg) (List Msg) → List Msg
  | .ok m => m
  | .error m => m

/-- The part of the messages channel a node execution can no longer touch:
everything for `agent` and END, everything but the latest assistant
message for `execute_tools` (which rewrites that message's tool-call args
in place). -/
def nodeBase : Node → List Msg → List Msg
  | .tools, msgs => msgs.dropLast
  | _, msgs => msgs

/-- A concrete per-message token count used to instantiate witnesses. -/
def lenCount : Msg → Nat := fun m => m.content.length

/-- A memory service that always succeeds (witnesses). -/
def okSvc : MemoryService :=
  ⟨fun _ _ => .ok "ok", fun _ _ => .ok "found"⟩

/-- A memory service whose transport always fails (witnesses). -/
def failSvc : MemoryService :=
  ⟨fun _ _ => .error "connection refused",
   fun _ _ => .error "connection refused"⟩

/-- An environment whose LLM answers without tool calls (witnesses). -/
def demoEnv : Env :=
  { llm := fun _ => ("hi", []), tools := setup_tools okSvc,
    gate := fun m => sumTokens lenCount m, c := lenCount,
    maxContext := none }

/-- An environment whose LLM requests a tool call on every invocation
(witnesses for the recursion guard). -/
def loopEnv : Env :=
  { llm := fun _ => ("x", [⟨"fetch_memory", [("query", "q")], "1"⟩]),
    tools := setup_tools okSvc, gate := fun m => sumTokens lenCount m,
    c := lenCount, maxContext := none }

/-- An environment with max_context = 8 under the length counter
(witnesses for trimming). -/
def trimEnv : Env :=
  { llm := fun _ => ("hi", []), tools := setup_tools okSvc,
    gate := fun m => sumTokens lenCount m, c := lenCount,
    maxContext := some 8 }

/-- An environment with max_context = 3 under the length counter
(counterexample input for trimming with no valid window). -/
def trimEnvSmall : Env :=
  { llm := fun _ => ("hi", []), tools := setup_tools okSvc,
    gate := fun m => sumTokens lenCount m, c := lenCount,
    maxContext := some 3 }

/-- A history that exceeds max_context = 8 and contains a fitting window
starting on a human message (witnesses). -/
def trimHistory : List Msg :=
  [Msg.human "aaaa", Msg.ai "bb" [], Msg.human "cc", Msg.ai "dd" []]

/-- A fresh session at thread "t0" (witnesses). -/
def demoBot0 : Bot := initBot "u" "sp" none "t0"

/-- A session whose thread "t0" has persisted state (witnesses). -/
def demoBot : Bot :=
  { user_id := "u", system_prompt := "sp", config := ⟨"t0", some 25⟩,
    store := [("t0", [Msg.system "sp", Msg.human "x", Msg.ai "y" []])] }

/-- Two tool calls with distinct identifiers (witnesses). -/
def demoCalls : List ToolCall :=
  [⟨"add_update_memory", [("memory", "m")], "c1"⟩,
   ⟨"fetch_memory", [("query", "x")], "c2"⟩]

/-! ## Helper lemmas -/

/-- Every resolution carries the id of the call it answers. -/
theorem invoke_tool_id (reg : List (String × ToolFn)) (uid : String)
    (tc : ToolCall) : (invoke_tool reg uid tc).msg.toolCallId = tc.id := by
  unfold invoke_tool
  cases h : reg.lookup tc.name with
  | none => rfl
  | some fn =>
      cases hf : fn (setArg tc.args "user_id" uid) <;>
        simp [hf, Msg.toolCallId]

/-- `dict.update` makes the key present with the new value. -/
theorem lookup_setArg (args : List (String × String)) (k v : String) :
    (setArg args k v).lookup k = some v := by
  induction args with
  | nil => simp [setArg, List.lookup]
  | cons p rest ih =>
      obtain ⟨k', v'⟩ := p
      by_cases h : k' = k
      · simp [setArg, h, List.lookup]
      · have hne : (k == k') = false := beq_eq_false_iff_ne.mpr (Ne.symm h)
        simp [setArg, h, List.lookup, ih, hne]

/-- Replacing or adding a thread's checkpoint makes it the one read back. -/
theorem lookup_putStore (store : List (String × List Msg)) (tid : String)
    (msgs : List Msg) : (putStore store tid msgs).lookup tid = some msgs := by
  induction store with
  | nil => simp [putStore, List.lookup]
  | cons p rest ih =>
      obtain ⟨k, v⟩ := p
      by_cases h : k = tid
      · simp [putStore, h, List.lookup]
      · have hne : (tid == k) = false := beq_eq_false_iff_ne.mpr (Ne.symm h)
        simp [putStore, h, List.lookup, ih, hne]

/-- A key absent from the association list's keys looks up to nothing. -/
theorem lookup_eq_none_of_not_mem {β : Type} (l : List (String × β))
    (k : String) (h : k ∉ l.map Prod.fst) : l.lookup k = none := by
  induction l with
  | nil => rfl
  | cons p rest ih =>
      obtain ⟨k', v'⟩ := p
      simp only [List.map_cons, List.mem_cons, not_or] at h
      have hne : (k == k') = false := beq_eq_false_iff_ne.mpr h.1
      simp [List.lookup, ih h.2, hne]

/-! ## C4: unknown tool names -/

/-- C4: resolving a tool call whose name is not in the registry produces a
tool-result message with content exactly "Tool doesn't exist!" carrying
the call's identifier, the call itself untouched; `invoke_tool` is a total
function of the embedding, so no exception reaches the caller. -/
theorem unknown_tool_result (reg : List (String × ToolFn)) (uid : String)
    (tc : ToolCall) (h : reg.lookup tc.name = none) :
    invoke_tool reg uid tc = ⟨.tool tc.id "Tool doesn't exist!", tc⟩ := by
  unfold invoke_tool
  rw [h]

/-- Witness for C4 at a concrete unknown name against the source registry. -/
theorem unknown_tool_result_witness :
    invoke_tool (setup_tools okSvc) "u" ⟨"web_search", [("q", "x")], "call1"⟩ =
      ⟨.tool "call1" "Tool doesn't exist!", ⟨"web_search", [("q", "x")], "call1"⟩⟩ :=
  unknown_tool_result (setup_tools okSvc) "u" _ rfl

/-! ## C5: tool invocations that raise -/

/-- C5: a tool invocation that raises yields, at that call's position, a
tool-result message whose content is "Error: " followed by the exception's
message, and the sibling resolutions still all happen — the result list
keeps one entry per call (asyncio.gather collects every result
positionally, so one failure aborts nothing). -/
theorem tool_error_result (reg : List (String × ToolFn)) (uid : String)
    (tcs : List ToolCall) (i : Nat) (tc : ToolCall) (fn : ToolFn) (e : String)
    (h1 : tcs.get? i = some tc)
    (h2 : reg.lookup tc.name = some fn)
    (h3 : fn (setArg tc.args "user_id" uid) = .error e) :
    (execute_tools reg uid tcs).get? i = some (.tool tc.id ("Error: " ++ e)) ∧
    (execute_tools reg uid tcs).length = tcs.length := by
  constructor
  · rw [execute_tools, List.get?_map, h1]
    show some (invoke_tool reg uid tc).msg = _
    simp only [invoke_tool, h2]
    simp [h3]
  · simp [execute_tools]

/-- Witness for C5: the search tool failing with "connection refused" in a
two-call batch still yields two results, the failing one at its position. -/
theorem tool_error_result_witness :
    (execute_tools (setup_tools failSvc) "u" demoCalls).get? 1 =
      some (.tool "c2" ("Error: " ++ "connection refused")) ∧
    (execute_tools (setup_tools failSvc) "u" demoCalls).length = demoCalls.length :=
  tool_error_result (setup_tools failSvc) "u" demoCalls 1
    ⟨"fetch_memory", [("query", "x")], "c2"⟩ (fetch_memory failSvc)
    "connection refused" rfl rfl rfl

/-! ## C6: one result per call, correlated by identifier -/

/-- C6: resolving the N tool calls of an assistant message produces
exactly N tool-result messages whose identifiers are, position by
position, the calls' identifiers (asyncio.gather orders results by input
position, regardless of completion order); when the call identifiers are
pairwise distinct, each identifier is answered by exactly one result. -/
theorem tool_results_correlated (reg : List (String × ToolFn)) (uid : String)
    (tcs : List ToolCall) (hnd : (tcs.map ToolCall.id).Nodup) :
    (execute_tools reg uid tcs).map Msg.toolCallId = tcs.map ToolCall.id ∧
    (execute_tools reg uid tcs).length = tcs.length ∧
    ∀ tc ∈ tcs,
      ((execute_tools reg uid tcs).countP fun m => m.toolCallId == tc.id) = 1 := by
  have hmap : (execute_tools reg uid tcs).map Msg.toolCallId = tcs.map ToolCall.id := by
    rw [execute_tools, List.map_map]
    exact List.map_congr_left fun tc _ => invoke_tool_id reg uid tc
  refine ⟨hmap, by simp [execute_tools], ?_⟩
  intro tc htc
  have hmem : tc.id ∈ tcs.map ToolCall.id := List.mem_map_of_mem _ htc
  calc ((execute_tools reg uid tcs).countP fun m => m.toolCallId == tc.id)
      = ((execute_tools reg uid tcs).map Msg.toolCallId).count tc.id := by
        rw [List.count, List.countP_map]
        rfl
    _ = (tcs.map ToolCall.id).count tc.id := by rw [hmap]
    _ = 1 := List.count_eq_one_of_mem hnd hmem

/-- Witness for C6 on a concrete two-call batch with distinct ids. -/
theorem tool_results_correlated_witness :
    ((execute_tools (setup_tools okSvc) "u" demoCalls).countP
      fun m => m.toolCallId == "c2") = 1 :=
  (tool_results_correlated (setup_tools okSvc) "u" demoCalls (by decide)).2.2
    ⟨"fetch_memory", [("query", "x")], "c2"⟩ (by decide)

/-! ## C9: the in-place argument mutation -/

/-- C9 counterexample: a resolved tool call whose name is unknown is NOT
mutated — `invoke_tool` returns before `args.update`, so the assistant
message embedding the call is left unchanged while the call still gets a
tool-result message.  This falsifies the claim's "for every tool call
resolved". -/
theorem unknown_call_not_mutated :
    toolsStep (setup_tools okSvc) "u"
        [Msg.ai "c" [⟨"web_search", [("q", "x")], "c9"⟩]] =
      [Msg.ai "c" [⟨"web_search", [("q", "x")], "c9"⟩],
       Msg.tool "c9" "Tool doesn't exist!"] := by
  decide

/-- C9 amended: for every resolved tool call whose name IS in the
registry, resolution rewrites the call's argument mapping in place to its
original content with the session's user identifier inserted under
"user_id" (also when the invocation then raises), so the assistant message
embedding the call carries the injected args afterwards; calls with
unknown names are left unchanged. -/
theorem registered_call_args_injected (reg : List (String × ToolFn))
    (uid : String) (tc : ToolCall) (fn : ToolFn)
    (h : reg.lookup tc.name = some fn) :
    (invoke_tool reg uid tc).call.args = setArg tc.args "user_id" uid ∧
    ((invoke_tool reg uid tc).call.args.lookup "user_id") = some uid := by
  have hset := lookup_setArg tc.args "user_id" uid
  simp only [invoke_tool, h]
  cases hf : fn (setArg tc.args "user_id" uid) <;> simp [hf, hset]

/-- Witness for the amended C9 on the search tool: the "user_id" pair is
appended to the call's args. -/
theorem registered_call_args_injected_witness :
    (invoke_tool (setup_tools okSvc) "u7"
        ⟨"fetch_memory", [("query", "x")], "c1"⟩).call.args =
      setArg [("query", "x")] "user_id" "u7" ∧
    ((invoke_tool (setup_tools okSvc) "u7"
        ⟨"fetch_memory", [("query", "x")], "c1"⟩).call.args.lookup "user_id") =
      some "u7" :=
  registered_call_args_injected (setup_tools okSvc) "u7" _ (fetch_memory okSvc) rfl

/-! ## C10: start_new_conversation drops the recursion-limit entry -/

/-- C10: after `start_new_conversation` the invocation configuration holds
only the new thread identifier — the recursion-limit entry present since
construction (`config.get("recursion_limit", 25)`) is gone, so subsequent
runs fall back to LangGraph's default limit of 25 whatever was configured
at construction. -/
theorem new_conversation_drops_recursion_limit (b : Bot) (newTid : String)
    (uid sp : String) (rl : Option Nat) (t0 : String) :
    (start_new_conversation b newTid).config = ⟨newTid, none⟩ ∧
    (start_new_conversation b newTid).effectiveRecursionLimit = 25 ∧
    (initBot uid sp rl t0).config.recursion_limit = some (rl.getD 25) :=
  ⟨rfl, rfl, rfl⟩

/-! ## C7: seeding the message sequence -/

/-- C7: with no persisted state behind the config's thread identifier,
`run` seeds the sequence with exactly the fixed system prompt's system
message followed by the user's human message (the stray
`collected_insights`/`variables` input keys are dropped by the framework's
input mapping); with persisted state, only the human message is appended;
and after `start_new_conversation` with a fresh thread identifier the next
run is seeded like a first run. -/
theorem run_seed_messages (b : Bot) (query : String) :
    (b.persisted = none →
      b.inputFor query = [Msg.system b.system_prompt, Msg.human query] ∧
      b.initialMessages query = [Msg.system b.system_prompt, Msg.human query]) ∧
    (∀ ms, b.persisted = some ms →
      b.inputFor query = [Msg.human query] ∧
      b.initialMessages query = ms ++ [Msg.human query]) ∧
    (∀ tid, tid ∉ b.store.map Prod.fst →
      (start_new_conversation b tid).inputFor query =
        [Msg.system b.system_prompt, Msg.human query]) := by
  refine ⟨fun h => ?_, fun ms h => ?_, fun tid h => ?_⟩
  · exact ⟨by simp [Bot.inputFor, h], by simp [Bot.initialMessages, Bot.inputFor, h]⟩
  · exact ⟨by simp [Bot.inputFor, h], by simp [Bot.initialMessages, Bot.inputFor, h]⟩
  · have hnone : (start_new_conversation b tid).persisted = none := by
      unfold Bot.persisted start_new_conversation
      exact lookup_eq_none_of_not_mem b.store tid h
    unfold Bot.inputFor
    rw [hnone]
    rfl

/-- Witness for C7: a fresh session seeds system+human, a session with
history appends only the human message, and a reset session seeds again. -/
theorem run_seed_messages_witness :
    demoBot0.inputFor "hello" = [Msg.system "sp", Msg.human "hello"] ∧
    demoBot.inputFor "hi" = [Msg.human "hi"] ∧
    (start_new_conversation demoBot "t9").inputFor "hi" =
      [Msg.system "sp", Msg.human "hi"] :=
  ⟨((run_seed_messages demoBot0 "hello").1 rfl).1,
   ((run_seed_messages demoBot "hi").2.1
      [Msg.system "sp", Msg.human "x", Msg.ai "y" []] rfl).1,
   (run_seed_messages demoBot "hi").2.2 "t9" (by decide)⟩

/-! ## C1: what `run` returns -/

/-- A run that terminates normally ends on an assistant message carrying
no tool calls (END is only reached when `_tool_exists` answers false on
the freshly appended LLM response). -/
theorem runLoop_ok_last (env : Env) (uid : String) :
    ∀ fuel (node : Node) msgs final, node ≠ .done →
      runLoop env uid fuel node msgs = .ok final →
      ∃ cont, final.getLast? = some (Msg.ai cont []) := by
  intro fuel
  induction fuel with
  | zero =>
      intro node msgs final hn h
      cases node with
      | agent => exact absurd h (by simp [runLoop])
      | tools => exact absurd h (by simp [runLoop])
      | done => exact absurd rfl hn
  | succ fuel ih =>
      intro node msgs final hn h
      cases node with
      | agent =>
          rw [runLoop] at h
          by_cases ht : toolExists (agentStep env msgs)
          · rw [if_pos ht] at h
            exact ih .tools _ final (by simp) h
          · rw [if_neg ht] at h
            have hfinal : final = agentStep env msgs := by
              cases fuel <;> exact (Except.ok.inj h).symm
            subst hfinal
            have hlast : (agentStep env msgs).getLast? =
                some (Msg.ai (env.llm (maybeTrim env msgs)).1
                  (env.llm (maybeTrim env msgs)).2) := by
              simp [agentStep, executor]
            rw [toolExists, hlast] at ht
            simp only [Bool.not_eq_true] at ht
            have hemp : (env.llm (maybeTrim env msgs)).2 = [] := by
              revert ht
              cases (env.llm (maybeTrim env msgs)).2 <;> simp
            exact ⟨(env.llm (maybeTrim env msgs)).1, by rw [hlast, hemp]⟩
      | tools =>
          rw [runLoop] at h
          exact ih .agent _ final (by simp) h
      | done => exact absurd rfl hn

/-- C1 counterexample: `run` returns the whole final graph state (the
mapping holding the full message sequence, `return response`), not a bare
string — on a concrete turn the returned value is the three-message state
and fails `isStr`. -/
theorem run_returns_no_string :
    (Bot.run demoEnv demoBot0 "hello").1.isStr = false ∧
    (Bot.run demoEnv demoBot0 "hello").1 =
      .state [Msg.system "sp", Msg.human "hello", Msg.ai "hi" []] :=
  ⟨rfl, rfl⟩

/-- C1 amended: `run` delegates to the executor loop until END and
returns the full final state; that state ends with the assistant's answer
message, whose content the Interactive Shell then extracts
(`response['messages'][-1].content`). -/
theorem run_returns_full_state (env : Env) (b : Bot) (query : String)
    (final : List Msg)
    (h : runLoop env b.user_id b.effectiveRecursionLimit .agent
        (b.initialMessages query) = .ok final) :
    (Bot.run env b query).1 = .state final ∧
    ∀ cont, final.getLast? = some (Msg.ai cont []) →
      chatExtract (Bot.run env b query).1 = some cont := by
  have h1 : (Bot.run env b query).1 = .state final := by
    simp [Bot.run, h]
  refine ⟨h1, fun cont hl => ?_⟩
  rw [h1]
  simp [chatExtract, hl, Msg.content]

/-- Witness for the amended C1 on a concrete turn. -/
theorem run_returns_full_state_witness :
    (Bot.run demoEnv demoBot0 "hello").1 =
      .state [Msg.system "sp", Msg.human "hello", Msg.ai "hi" []] ∧
    chatExtract (Bot.run demoEnv demoBot0 "hello").1 = some "hi" :=
  ⟨(run_returns_full_state demoEnv demoBot0 "hello" _ rfl).1,
   (run_returns_full_state demoEnv demoBot0 "hello"
      [Msg.system "sp", Msg.human "hello", Msg.ai "hi" []] rfl).2 "hi" rfl⟩

/-! ## C8: the recursion ceiling -/

/-- The execute_tools node only appends beyond everything but the latest
assistant message (whose tool-call args it rewrites in place). -/
theorem dropLast_pre_toolsStep (reg : List (String × ToolFn)) (uid : String)
    (msgs : List Msg) : msgs.dropLast <+: toolsStep reg uid msgs := by
  unfold toolsStep
  cases hl : msgs.getLast? with
  | none => exact List.dropLast_prefix msgs
  | some m =>
      cases m with
      | system s => exact List.dropLast_prefix msgs
      | human s => exact List.dropLast_prefix msgs
      | tool i s => exact List.dropLast_prefix msgs
      | ai cont tcs =>
          exact ⟨[Msg.ai cont (mutated_calls reg uid tcs)] ++
            execute_tools reg uid tcs, (List.append_assoc _ _ _).symm⟩

/-- Whatever the loop's outcome (final state or recursion-error
checkpoint), the carried sequence extends the entry state of every node:
the history grows by appends only, apart from the in-place tool-call arg
injection on the latest assistant message. -/
theorem runLoop_extends (env : Env) (uid : String) :
    ∀ fuel (node : Node) msgs,
      nodeBase node msgs <+: payload (runLoop env uid fuel node msgs) := by
  intro fuel
  induction fuel with
  | zero =>
      intro node msgs
      cases node with
      | agent => exact ⟨[], by simp [runLoop, payload, nodeBase]⟩
      | tools =>
          show msgs.dropLast <+: payload (runLoop env uid 0 .tools msgs)
          simpa [runLoop, payload] using List.dropLast_prefix msgs
      | done => exact ⟨[], by simp [runLoop, payload, nodeBase]⟩
  | succ fuel ih =>
      intro node msgs
      cases node with
      | agent =>
          have hdl : (agentStep env msgs).dropLast = msgs := by
            rw [agentStep, executor]
            exact List.dropLast_concat
          rw [runLoop]
          by_cases ht : toolExists (agentStep env msgs)
          · rw [if_pos ht]
            have h2 : (agentStep env msgs).dropLast <+:
                payload (runLoop env uid fuel .tools (agentStep env msgs)) :=
              ih .tools (agentStep env msgs)
            rw [hdl] at h2
            exact h2
          · rw [if_neg ht]
            have h2 : agentStep env msgs <+:
                payload (runLoop env uid fuel .done (agentStep env msgs)) :=
              ih .done (agentStep env msgs)
            exact List.IsPrefix.trans ⟨executor env msgs, rfl⟩ h2
      | tools =>
          rw [runLoop]
          have h2 : toolsStep env.tools uid msgs <+:
              payload (runLoop env uid fuel .agent (toolsStep env.tools uid msgs)) :=
            ih .agent (toolsStep env.tools uid msgs)
          exact (dropLast_pre_toolsStep env.tools uid msgs).trans h2
      | done => exact ⟨[], by simp [runLoop, payload, nodeBase]⟩

/-- Under an LLM that requests tool calls on every invocation, the loop
never reaches END: it always exhausts its fuel and reports the recursion
error (with the last completed super-step's state as checkpoint). -/
theorem runLoop_always_tools_error (env : Env) (uid : String)
    (hllm : ∀ ms, (env.llm ms).2 ≠ []) :
    ∀ fuel (node : Node) msgs, node ≠ .done →
      ∃ m, runLoop env uid fuel node msgs = .error m := by
  intro fuel
  induction fuel with
  | zero =>
      intro node msgs hn
      cases node with
      | agent => exact ⟨msgs, rfl⟩
      | tools => exact ⟨msgs, rfl⟩
      | done => exact absurd rfl hn
  | succ fuel ih =>
      intro node msgs hn
      cases node with
      | agent =>
          have hlast : (agentStep env msgs).getLast? =
              some (Msg.ai (env.llm (maybeTrim env msgs)).1
                (env.llm (maybeTrim env msgs)).2) := by
            simp [agentStep, executor]
          have ht : toolExists (agentStep env msgs) = true := by
            rw [toolExists, hlast]
            cases hE : (env.llm (maybeTrim env msgs)).2 with
            | nil => exact absurd hE (hllm _)
            | cons a t => rfl
          rw [runLoop, if_pos ht]
          exact ih .tools _ (by simp)
      | tools =>
          rw [runLoop]
          exact ih .agent _ (by simp)
      | done => exact absurd rfl hn

/-- C8: the LLM⇄tool cycle is bounded by the invocation configuration's
recursion limit (as set at construction, default 25): an LLM that asks for
tools forever makes the turn fail with the recursion-limit error instead
of looping, `run` surfaces the failure, and the persisted state is not
corrupted — the checkpoint left behind extends the turn's initial message
sequence by appends only. -/
theorem recursion_limit_bounds_turn (env : Env) (b : Bot) (query : String)
    (hllm : ∀ ms, (env.llm ms).2 ≠ []) :
    ∃ m, runLoop env b.user_id b.effectiveRecursionLimit .agent
        (b.initialMessages query) = .error m ∧
      (Bot.run env b query).1 = .recursionError ∧
      b.initialMessages query <+: m ∧
      (Bot.run env b query).2.store.lookup b.config.thread_id = some m := by
  obtain ⟨m, hm⟩ := runLoop_always_tools_error env b.user_id hllm
    b.effectiveRecursionLimit .agent (b.initialMessages query) (by simp)
  have hext : nodeBase .agent (b.initialMessages query) <+:
      payload (runLoop env b.user_id b.effectiveRecursionLimit .agent
        (b.initialMessages query)) :=
    runLoop_extends env b.user_id b.effectiveRecursionLimit .agent
      (b.initialMessages query)
  rw [hm] at hext
  simp only [payload, nodeBase] at hext
  refine ⟨m, hm, by simp [Bot.run, hm], hext, ?_⟩
  simp [Bot.run, hm, lookup_putStore]

/-- Witness for C8: with a configured limit of 3 super-steps and an LLM
that always requests a tool call, the turn fails with the recursion
error. -/
theorem recursion_limit_bounds_turn_witness :
    (Bot.run loopEnv (initBot "u" "sp" (some 3) "t0") "hello").1 =
      .recursionError := by
  obtain ⟨m, hm, h2, hext, hstore⟩ :=
    recursion_limit_bounds_turn loopEnv (initBot "u" "sp" (some 3) "t0")
      "hello" (fun ms => by simp [loopEnv])
  exact h2

/-! ## Trimming lemmas -/

/-- The boundary walk never moves forward. -/
theorem walkBack_le (s : Msg → Bool) (rev : List Msg) :
    ∀ k, walkBack s rev k ≤ k := by
  intro k
  induction k with
  | zero => exact Nat.le_refl 0
  | succ k ih =>
      rw [walkBack]
      split
      · exact Nat.le_refl _
      · exact Nat.le_trans ih (Nat.le_succ k)

/-- A nonzero boundary sits on a message satisfying the start predicate. -/
theorem walkBack_pos (s : Msg → Bool) (rev : List Msg) :
    ∀ k j, walkBack s rev k = j + 1 → (rev.get? j).any s = true := by
  intro k
  induction k with
  | zero => intro j h; exact absurd h (by simp [walkBack])
  | succ k ih =>
      intro j h
      rw [walkBack] at h
      by_cases hc : (rev.get? k).any s
      · rw [if_pos hc] at h
        exact (Nat.succ.inj h) ▸ hc
      · rw [if_neg hc] at h
        exact ih j h

/-- The fit search never exceeds its bound. -/
theorem findLargestFit_le (c : Msg → Nat) (budget : Int) (rev : List Msg) :
    ∀ k, findLargestFit c budget rev k ≤ k := by
  intro k
  induction k with
  | zero => exact Nat.le_refl 0
  | succ k ih =>
      rw [findLargestFit]
      split
      · exact Nat.le_refl _
      · exact Nat.le_trans ih (Nat.le_succ k)

/-- A nonzero fit actually fits the budget. -/
theorem findLargestFit_fits (c : Msg → Nat) (budget : Int) (rev : List Msg) :
    ∀ k, findLargestFit c budget rev k = 0 ∨
      (sumTokens c (rev.take (findLargestFit c budget rev k)) : Int) ≤ budget := by
  intro k
  induction k with
  | zero => exact Or.inl rfl
  | succ k ih =>
      rw [findLargestFit]
      split
      · next h => exact Or.inr h
      · exact ih

/-- Under an additive counter, front segments cost monotonically. -/
theorem sumTokens_take_le (c : Msg → Nat) (l : List Msg) (j k : Nat)
    (h : j ≤ k) : sumTokens c (l.take j) ≤ sumTokens c (l.take k) := by
  have h1 : l.take j = (l.take k).take j := by
    rw [List.take_take, min_eq_left h]
  rw [h1]
  conv_rhs => rw [← List.take_append_drop j (l.take k)]
  rw [sumTokens, sumTokens, List.map_append, List.sum_append]
  exact Nat.le_add_right _ _

/-- An additive counter does not see the order of the messages. -/
theorem sumTokens_reverse (c : Msg → Nat) (l : List Msg) :
    sumTokens c l.reverse = sumTokens c l := by
  rw [sumTokens, sumTokens, List.map_reverse, List.sum_reverse]

/-- When the history already ends on an end_on message, the end-popping
phase keeps it whole. -/
theorem dropEndFailing_id (endB : Msg → Bool) (l : List Msg)
    (h : (l.getLast?).any endB = true) : dropEndFailing endB l = l := by
  unfold dropEndFailing
  cases hr : l.reverse with
  | nil =>
      have hnil : l = [] := by simpa using congrArg List.reverse hr
      subst hnil
      simp at h
  | cons a t =>
      have ha : endB a = true := by
        have h1 : l.getLast? = some a := by
          rw [← List.head?_reverse, hr]
          rfl
        rw [h1] at h
        simpa using h
      rw [List.dropWhile_cons]
      rw [show (!endB a) = false by simp [ha]]
      simp only [Bool.false_eq_true, if_false]
      rw [← hr, List.reverse_reverse]

/-- `trim_messages` on a history that starts with the system message and
ends on an end_on message: the system message is retained and the window
is `trimWindow`. -/
theorem trim_messages_system_cons (c : Msg → Nat) (mc : Nat) (p : String)
    (rest : List Msg) (h : (rest.getLast?).any isEndOnB = true) :
    trim_messages c mc (Msg.system p :: rest) =
      Msg.system p :: trimWindow c mc p rest := by
  have hne : rest ≠ [] := by
    intro he
    subst he
    simp at h
  have hl : ((Msg.system p :: rest).getLast?).any isEndOnB = true := by
    cases rest with
    | nil => exact absurd rfl hne
    | cons b u => rw [List.getLast?_cons_cons]; exact h
  unfold trim_messages
  rw [dropEndFailing_id _ _ hl]
  rfl

/-- The last element of a nonempty front segment is the element at the
boundary. -/
theorem getLast?_take_succ (l : List Msg) :
    ∀ j, j < l.length → (l.take (j + 1)).getLast? = l.get? j := by
  induction l with
  | nil => intro j h; exact absurd h (Nat.not_lt_zero j)
  | cons a t ih =>
      intro j h
      cases j with
      | zero => rfl
      | succ m =>
          have hm : m < t.length := Nat.lt_of_succ_lt_succ h
          cases t with
          | nil => exact absurd hm (Nat.not_lt_zero m)
          | cons b u =>
              rw [show ((a :: b :: u).take (m + 1 + 1)) =
                    a :: b :: u.take m from rfl]
              rw [List.getLast?_cons_cons]
              exact ih m hm

/-- A nonempty front segment starts where the list starts. -/
theorem head?_take_succ (l : List Msg) (j : Nat) (hl : l ≠ []) :
    (l.take (j + 1)).head? = l.head? := by
  cases l with
  | nil => exact absurd rfl hl
  | cons a t => rfl

/-- The reversal of a front segment of the reversal is a suffix. -/
theorem reverse_take_sfx (l : List Msg) (n : Nat) :
    (l.take n).reverse <:+ l.reverse :=
  ⟨(l.drop n).reverse, by rw [← List.reverse_append, List.take_append_drop]⟩

/-- Structure of a nonempty trimmed window: it starts on a human message,
ends on an end_on message, is a suffix of the history after the system
message (the most recent messages) and fits the token budget together
with the system message. -/
theorem trimWindow_spec (c : Msg → Nat) (mc : Nat) (p : String)
    (rest : List Msg)
    (hend : (rest.getLast?).any isEndOnB = true)
    (hw : trimWindow c mc p rest ≠ []) :
    ((trimWindow c mc p rest).head?).any isHumanB = true ∧
    ((trimWindow c mc p rest).getLast?).any isEndOnB = true ∧
    trimWindow c mc p rest <:+ rest ∧
    (sumTokens c (Msg.system p :: trimWindow c mc p rest) : Int) ≤ (mc : Int) := by
  obtain ⟨rev, hrev⟩ : ∃ rev, rest.reverse = rev := ⟨_, rfl⟩
  obtain ⟨budget, hbud⟩ :
      ∃ b : Int, (mc : Int) - (c (Msg.system p) : Int) = b := ⟨_, rfl⟩
  obtain ⟨fit, hfit⟩ : ∃ f, findLargestFit c budget rev rev.length = f := ⟨_, rfl⟩
  obtain ⟨idx, hidx⟩ : ∃ i, walkBack isHumanB rev fit = i := ⟨_, rfl⟩
  have hwin : trimWindow c mc p rest = (rev.take idx).reverse := by
    unfold trimWindow firstMaxTokens
    rw [hrev, hbud, hfit, hidx]
  cases idx with
  | zero => exact absurd (by rw [hwin]; rfl) hw
  | succ j =>
      have hjfit : j + 1 ≤ fit := by
        have := walkBack_le isHumanB rev fit
        rw [hidx] at this
        exact this
      have hfitlen : fit ≤ rev.length := by
        have := findLargestFit_le c budget rev rev.length
        rw [hfit] at this
        exact this
      have hjlt : j < rev.length := by omega
      have hrevne : rev ≠ [] := by
        intro he
        rw [he] at hjlt
        exact absurd hjlt (Nat.not_lt_zero j)
      have hhum : (rev.get? j).any isHumanB = true :=
        walkBack_pos isHumanB rev fit j hidx
      refine ⟨?_, ?_, ?_, ?_⟩
      · rw [hwin, List.head?_reverse, getLast?_take_succ rev j hjlt]
        exact hhum
      · rw [hwin, List.getLast?_reverse, head?_take_succ rev j hrevne]
        rw [← hrev, List.head?_reverse]
        exact hend
      · rw [hwin]
        have h1 := reverse_take_sfx rev (j + 1)
        have h2 : rev.reverse = rest := by
          rw [← hrev, List.reverse_reverse]
        rw [h2] at h1
        exact h1
      · have hfit0 : fit ≠ 0 := by omega
        have hfits : (sumTokens c (rev.take fit) : Int) ≤ budget := by
          rcases findLargestFit_fits c budget rev rev.length with hz | hle
          · rw [hfit] at hz
            exact absurd hz hfit0
          · rw [hfit] at hle
            exact hle
        have hmono : sumTokens c (rev.take (j + 1)) ≤ sumTokens c (rev.take fit) :=
          sumTokens_take_le c rev (j + 1) fit hjfit
        have hwinsum : sumTokens c (trimWindow c mc p rest) =
            sumTokens c (rev.take (j + 1)) := by
          rw [hwin]
          exact sumTokens_reverse c (rev.take (j + 1))
        have hcons : sumTokens c (Msg.system p :: trimWindow c mc p rest) =
            c (Msg.system p) + sumTokens c (trimWindow c mc p rest) := by
          simp [sumTokens]
        rw [hcons, hwinsum]
        have hmono' : (sumTokens c (rev.take (j + 1)) : Int) ≤
            (sumTokens c (rev.take fit) : Int) := Int.ofNat_le.mpr hmono
        push_cast
        omega

/-! ## C3: trimming before the LLM call -/

/-- C3 counterexample: a history whose approximate token count exceeds
max_context but in which no suffix starting on a human message fits the
remaining budget is NOT trimmed to a window starting on a human message —
the executor's LLM input degenerates to the system message alone. -/
theorem executor_trim_without_window :
    trimEnvSmall.gate [Msg.system "s", Msg.human "aaaaaa", Msg.ai "bb" []] > 3 ∧
    maybeTrim trimEnvSmall [Msg.system "s", Msg.human "aaaaaa", Msg.ai "bb" []] =
      [Msg.system "s"] ∧
    (((maybeTrim trimEnvSmall
        [Msg.system "s", Msg.human "aaaaaa", Msg.ai "bb" []]).drop 1).head?).any
      isHumanB = false :=
  ⟨by decide, by decide, by decide⟩

/-- C3 amended: when max_context is set, nonzero and exceeded by the gate
counter, and the trimmed window is nonempty (i.e. some suffix of the
history beginning on a human message fits the remaining budget), the
executor passes to the LLM exactly the retained system message followed by
that window, which starts on a human message, ends on a
human/assistant/tool message, is a suffix of the history (its most recent
messages) and fits the token budget; when no such window exists, the LLM
input is the system message alone (see the counterexample). -/
theorem executor_trims_to_valid_window (env : Env) (p : String)
    (rest : List Msg) (mc : Nat)
    (hmc : env.maxContext = some mc) (hmc0 : mc ≠ 0)
    (hgate : env.gate (Msg.system p :: rest) > mc)
    (hend : (rest.getLast?).any isEndOnB = true)
    (hw : trimWindow env.c mc p rest ≠ []) :
    maybeTrim env (Msg.system p :: rest) =
      Msg.system p :: trimWindow env.c mc p rest ∧
    ((trimWindow env.c mc p rest).head?).any isHumanB = true ∧
    ((trimWindow env.c mc p rest).getLast?).any isEndOnB = true ∧
    trimWindow env.c mc p rest <:+ rest ∧
    (sumTokens env.c (Msg.system p :: trimWindow env.c mc p rest) : Int) ≤
      (mc : Int) ∧
    executor env (Msg.system p :: rest) =
      [Msg.ai (env.llm (Msg.system p :: trimWindow env.c mc p rest)).1
        (env.llm (Msg.system p :: trimWindow env.c mc p rest)).2] := by
  have hspec := trimWindow_spec env.c mc p rest hend hw
  have htr : maybeTrim env (Msg.system p :: rest) =
      Msg.system p :: trimWindow env.c mc p rest := by
    simp only [maybeTrim, hmc]
    rw [if_pos ⟨hmc0, hgate⟩]
    exact trim_messages_system_cons env.c mc p rest hend
  have hex : executor env (Msg.system p :: rest) =
      [Msg.ai (env.llm (Msg.system p :: trimWindow env.c mc p rest)).1
        (env.llm (Msg.system p :: trimWindow env.c mc p rest)).2] := by
    unfold executor
    rw [htr]
  exact ⟨htr, hspec.1, hspec.2.1, hspec.2.2.1, hspec.2.2.2, hex⟩

/-- Witness for the amended C3: with max_context 8 and an 11-token
history, the LLM input is the system message plus the most recent window
starting on a human message. -/
theorem executor_trims_witness :
    maybeTrim trimEnv (Msg.system "s" :: trimHistory) =
      Msg.system "s" :: trimWindow trimEnv.c 8 "s" trimHistory ∧
    ((trimWindow trimEnv.c 8 "s" trimHistory).head?).any isHumanB = true :=
  ⟨(executor_trims_to_valid_window trimEnv "s" trimHistory 8 rfl
      (by decide) (by decide) (by decide) (by decide)).1,
   (executor_trims_to_valid_window trimEnv "s" trimHistory 8 rfl
      (by decide) (by decide) (by decide) (by decide)).2.1⟩

/-! ## C2: trimming when no valid window fits -/

/-- C2 counterexample: on a history for which no valid window fits the
budget, the trimming step does NOT keep the untrimmed sequence — it
reduces the history to the retained system message alone. -/
theorem trim_no_window_not_untrimmed :
    noWindowFitsB lenCount ((6 : Int) - (lenCount (Msg.system "s") : Int))
      ([Msg.human "aaaaaaaaaa", Msg.ai "bbb" []].reverse) = true ∧
    trim_messages lenCount 6
        [Msg.system "s", Msg.human "aaaaaaaaaa", Msg.ai "bbb" []] =
      [Msg.system "s"] ∧
    trim_messages lenCount 6
        [Msg.system "s", Msg.human "aaaaaaaaaa", Msg.ai "bbb" []] ≠
      [Msg.system "s", Msg.human "aaaaaaaaaa", Msg.ai "bbb" []] :=
  ⟨by decide, by decide, by decide⟩

/-- C2 corrected: when no nonempty suffix of the history starting on a
human message fits the remaining budget, `trim_messages` returns the
retained system message alone — a smaller-than-valid sequence, not the
untrimmed one.  It is still not a fatal error (the function is total), and
the persisted conversation state is unaffected either way since trimming
only shapes the LLM input. -/
theorem trim_no_window_keeps_system_only (c : Msg → Nat) (mc : Nat)
    (p : String) (rest : List Msg)
    (hend : (rest.getLast?).any isEndOnB = true)
    (hno : noWindowFitsB c ((mc : Int) - (c (Msg.system p) : Int))
      rest.reverse = true) :
    trim_messages c mc (Msg.system p :: rest) = [Msg.system p] := by
  rw [trim_messages_system_cons c mc p rest hend]
  suffices hW : trimWindow c mc p rest = [] by rw [hW]
  obtain ⟨rev, hrev⟩ : ∃ rev, rest.reverse = rev := ⟨_, rfl⟩
  obtain ⟨budget, hbud⟩ :
      ∃ b : Int, (mc : Int) - (c (Msg.system p) : Int) = b := ⟨_, rfl⟩
  obtain ⟨fit, hfit⟩ : ∃ f, findLargestFit c budget rev rev.length = f := ⟨_, rfl⟩
  obtain ⟨idx, hidx⟩ : ∃ i, walkBack isHumanB rev fit = i := ⟨_, rfl⟩
  rw [hrev, hbud] at hno
  have hwin : trimWindow c mc p rest = (rev.take idx).reverse := by
    unfold trimWindow firstMaxTokens
    rw [hrev, hbud, hfit, hidx]
  cases idx with
  | zero => rw [hwin]; rfl
  | succ j =>
      exfalso
      have hhum : (rev.get? j).any isHumanB = true :=
        walkBack_pos isHumanB rev fit j hidx
      have hjfit : j + 1 ≤ fit := by
        have := walkBack_le isHumanB rev fit
        rw [hidx] at this
        exact this
      have hfitlen : fit ≤ rev.length := by
        have := findLargestFit_le c budget rev rev.length
        rw [hfit] at this
        exact this
      have hfit0 : fit ≠ 0 := by omega
      have hfits : (sumTokens c (rev.take fit) : Int) ≤ budget := by
        rcases findLargestFit_fits c budget rev rev.length with hz | hle
        · rw [hfit] at hz
          exact absurd hz hfit0
        · rw [hfit] at hle
          exact hle
      have hmono : sumTokens c (rev.take (j + 1)) ≤ sumTokens c (rev.take fit) :=
        sumTokens_take_le c rev (j + 1) fit hjfit
      have hs : (sumTokens c (rev.take (j + 1)) : Int) ≤ budget :=
        le_trans (Int.ofNat_le.mpr hmono) hfits
      unfold noWindowFitsB at hno
      have hk := List.all_eq_true.mp hno (j + 1)
        (List.mem_range.mpr (by omega))
      have h01 : decide (0 < j + 1) = true := by simp
      rw [Nat.add_sub_cancel, h01, hhum] at hk
      simp only [Bool.true_and, Bool.not_true, Bool.false_or] at hk
      have hlt : budget < (sumTokens c (rev.take (j + 1)) : Int) :=
        of_decide_eq_true hk
      exact absurd hlt (not_lt.mpr hs)

/-- Witness for the corrected C2: a system message plus an 8-token human
and a 1-token assistant message under max_context 4 trim to the system
message alone. -/
theorem trim_no_window_keeps_system_only_witness :
    trim_messages lenCount 4
        (Msg.system "ss" :: [Msg.human "aaaaaaaa", Msg.ai "b" []]) =
      [Msg.system "ss"] :=
  trim_no_window_keeps_system_only lenCount 4 "ss"
    [Msg.human "aaaaaaaa", Msg.ai "b" []] (by decide) (by decide)

end AgenticChatbot
